import Mathlib

/-!
# Verification of `src/task/08-objects-tasks.js`

A shallow embedding of the repository's objects-tasks module:

* `Rectangle` (constructor plus `getArea`),
* `getJSON` / `fromJSON` (thin wrappers over the host's `JSON.stringify`,
  `JSON.parse` and `Object.setPrototypeOf`, modelled here by an executable
  JSON serializer/parser over a JSON value type),
* the CSS selector builder (`Selector` prototype and the
  `cssSelectorBuilder` facade).

JavaScript methods that mutate `this` are embedded as explicit state
transformers `Selector → Selector × Except String Selector`: the first
component is the post-state of the receiver (JavaScript mutation persists
even when the method throws), the second is the thrown error message or the
returned value (the source methods all end in `return this`, so the `.ok`
payload is the post-state).
-/

namespace ObjectsTasks

/-! ## `Rectangle`

JavaScript numbers are modelled as integers: the two tasks under test only
store the constructor arguments and multiply them. -/

structure Rectangle where
  width : Int
  height : Int

/-- `Rectangle.prototype.getArea = function () { return this.width * this.height }` -/
def Rectangle.getArea (r : Rectangle) : Int := r.width * r.height

/-! ## The selector data model

A fragment of a selector is stored in the source as a two-element array
`[value, type]`, where `value` is a raw token string for the six single-token
categories and a triple `[selector1, combinator, selector2]` for the
`'combine'` category.  `Selector` objects own two arrays: `selectors` (the
fragment sequence) and `validSort` (the lazily populated order cache). -/

mutual

inductive SelectorFrag where
  | single (value : String) (type : String)
  | comb (left : Selector) (combinator : String) (right : Selector)

inductive Selector where
  | mk (selectors : List SelectorFrag) (validSort : List String)

end

/-- `this.selectors` -/
def Selector.selectors : Selector → List SelectorFrag
  | .mk s _ => s

/-- `this.validSort` -/
def Selector.validSort : Selector → List String
  | .mk _ v => v

/-- The tag `cur[1]` stored with a fragment (`'combine'` for combinator
fragments). -/
def SelectorFrag.type : SelectorFrag → String
  | .single _ t => t
  | .comb _ _ _ => "combine"

/-- `Selector.prototype.sortSelectors` -/
def sortSelectors : List String :=
  ["element", "id", "class", "attr", "pseudoClass", "pseudoElement"]

/-- JavaScript `Array.prototype.indexOf`: index of the first occurrence,
`-1` when absent. -/
def jsIndexOfAux (s : String) : List String → Int → Int
  | [], _ => -1
  | x :: xs, i => if x = s then i else jsIndexOfAux s xs (i + 1)

def jsIndexOf (l : List String) (s : String) : Int := jsIndexOfAux s l 0

/-- `this.sortSelectors.indexOf t` — the precedence rank of a category. -/
def rank (t : String) : Int := jsIndexOf sortSelectors t

/-- The message of the duplicate-category error thrown by `tryPush`
(the source's typo `more then` is preserved). -/
def dupMsg : String :=
  "Element, id and pseudo-element should not occur more then one time inside the selector"

/-- The message of the order-violation error thrown by `validate`. -/
def orderMsg : String :=
  "Selector parts should be arranged in the following order: element, id, class, attribute, pseudo-class, pseudo-element"

/-- The fragment types currently in the sequence (`cur[1]` for each `cur` of
`this.selectors`). -/
def typesOf (s : Selector) : List String := s.selectors.map SelectorFrag.type

/-- `Selector.prototype.include(value, array)`: loops over `array` and
returns `true` as soon as `cur[1] == value[1]`. -/
def incl (value : SelectorFrag) (array : List SelectorFrag) : Bool :=
  array.any (fun cur => cur.type == value.type)

/-- The cache after `validate`'s populate step: `if (!this.validSort.length)`
the type of every fragment of `this.selectors` is pushed onto `validSort`;
once non-empty the cache is never repopulated. -/
def newSort (s : Selector) : List String :=
  if s.validSort.isEmpty then s.validSort ++ typesOf s else s.validSort

/-- `Selector.prototype.validate(value)`.  After the populate step the
(possibly stale) cache is scanned and the order-violation error is thrown as
soon as some cached category has a strictly greater rank than `value`.  The
populated cache persists even when the error is thrown. -/
def Selector.validate (s : Selector) (value : String) : Selector × Option String :=
  if (newSort s).any (fun val => rank val > rank value)
  then (Selector.mk s.selectors (newSort s), some orderMsg)
  else (Selector.mk s.selectors (newSort s), none)

/-- `Selector.prototype.tryPush(value)`: throws the duplicate-category error
when a fragment with the same type tag is already present, otherwise appends. -/
def Selector.tryPush (s : Selector) (value : SelectorFrag) : Selector × Option String :=
  if incl value s.selectors
  then (s, some dupMsg)
  else (Selector.mk (s.selectors ++ [value]) s.validSort, none)

/-- `Selector.prototype.element(value)`: `validate`, `tryPush`, `return this`. -/
def Selector.element (value : String) (s : Selector) : Selector × Except String Selector :=
  match s.validate "element" with
  | (s1, some e) => (s1, .error e)
  | (s1, none) =>
    match s1.tryPush (.single value "element") with
    | (s2, some e) => (s2, .error e)
    | (s2, none) => (s2, .ok s2)

/-- `Selector.prototype.id(value)`: `validate`, `tryPush`, `return this`. -/
def Selector.id (value : String) (s : Selector) : Selector × Except String Selector :=
  match s.validate "id" with
  | (s1, some e) => (s1, .error e)
  | (s1, none) =>
    match s1.tryPush (.single value "id") with
    | (s2, some e) => (s2, .error e)
    | (s2, none) => (s2, .ok s2)

/-- `Selector.prototype.class(value)` (named `cls` here because `class` is a
Lean keyword): `validate`, then a direct `selectors.push` with no duplicate
check, `return this`. -/
def Selector.cls (value : String) (s : Selector) : Selector × Except String Selector :=
  match s.validate "class" with
  | (s1, some e) => (s1, .error e)
  | (s1, none) =>
    let s2 := Selector.mk (s1.selectors ++ [.single value "class"]) s1.validSort
    (s2, .ok s2)

/-- `Selector.prototype.attr(value)`: `validate`, direct push, `return this`. -/
def Selector.attr (value : String) (s : Selector) : Selector × Except String Selector :=
  match s.validate "attr" with
  | (s1, some e) => (s1, .error e)
  | (s1, none) =>
    let s2 := Selector.mk (s1.selectors ++ [.single value "attr"]) s1.validSort
    (s2, .ok s2)

/-- `Selector.prototype.pseudoClass(value)`: `validate`, direct push,
`return this`. -/
def Selector.pseudoClass (value : String) (s : Selector) : Selector × Except String Selector :=
  match s.validate "pseudoClass" with
  | (s1, some e) => (s1, .error e)
  | (s1, none) =>
    let s2 := Selector.mk (s1.selectors ++ [.single value "pseudoClass"]) s1.validSort
    (s2, .ok s2)

/-- `Selector.prototype.pseudoElement(value)`: `validate`, `tryPush`,
`return this`. -/
def Selector.pseudoElement (value : String) (s : Selector) : Selector × Except String Selector :=
  match s.validate "pseudoElement" with
  | (s1, some e) => (s1, .error e)
  | (s1, none) =>
    match s1.tryPush (.single value "pseudoElement") with
    | (s2, some e) => (s2, .error e)
    | (s2, none) => (s2, .ok s2)

/-- `Selector.prototype.combine(selector1, combinator, selector2)`: a bare
`tryPush` of the combinator fragment — no `validate` call and no validation
of the three arguments — then `return this`. -/
def Selector.combine (selector1 : Selector) (combinator : String) (selector2 : Selector)
    (s : Selector) : Selector × Except String Selector :=
  match s.tryPush (.comb selector1 combinator selector2) with
  | (s2, some e) => (s2, .error e)
  | (s2, none) => (s2, .ok s2)

/-! ## `stringify` -/

mutual

/-- The textual form of one fragment: the `switch` body of
`Selector.prototype.stringify` (unknown tags contribute `''`). -/
def fragStr : SelectorFrag → String
  | .single v t =>
    if t = "element" then v
    else if t = "id" then "#" ++ v
    else if t = "class" then "." ++ v
    else if t = "attr" then "[" ++ v ++ "]"
    else if t = "pseudoClass" then ":" ++ v
    else if t = "pseudoElement" then "::" ++ v
    else ""
  | .comb l c r => selStr l ++ " " ++ c ++ " " ++ selStr r

/-- The `reduce` accumulation: `prev += str` over the fragment list. -/
def listStr : List SelectorFrag → String → String
  | [], acc => acc
  | e :: es, acc => listStr es (acc ++ fragStr e)

/-- `Selector.prototype.stringify()`: reduce over `this.selectors` with
initial accumulator `''`. -/
def selStr : Selector → String
  | .mk entries _ => listStr entries ""

end

/-- `stringify` as a state transformer: the source body is a single `return`
of the `reduce` expression and contains no assignment to `this`, so the
post-state is the receiver unchanged and the returned value is the string. -/
def stringifyM (s : Selector) : Selector × String := (s, selStr s)

/-! ## The facade -/

/-- `new Selector()`: both arrays start empty. -/
def Selector.new : Selector := .mk [] []

namespace cssSelectorBuilder

def element (value : String) : Selector × Except String Selector :=
  Selector.element value Selector.new

def id (value : String) : Selector × Except String Selector :=
  Selector.id value Selector.new

def cls (value : String) : Selector × Except String Selector :=
  Selector.cls value Selector.new

def attr (value : String) : Selector × Except String Selector :=
  Selector.attr value Selector.new

def pseudoClass (value : String) : Selector × Except String Selector :=
  Selector.pseudoClass value Selector.new

def pseudoElement (value : String) : Selector × Except String Selector :=
  Selector.pseudoElement value Selector.new

def combine (selector1 : Selector) (combinator : String) (selector2 : Selector) :
    Selector × Except String Selector :=
  Selector.combine selector1 combinator selector2 Selector.new

end cssSelectorBuilder

/-- Method chaining `b.f(x).g(y)`: the receiver of the next call is the value
returned by the previous one; a thrown error aborts the chain. -/
def chain (r : Selector × Except String Selector)
    (f : Selector → Selector × Except String Selector) : Selector × Except String Selector :=
  match r with
  | (s, .error e) => (s, .error e)
  | (_, .ok s) => f s

/-- The spec's §8 order-example chain:
`element('elem').id('id').class('cls').attr('attr').pseudoClass('pc').pseudoElement('pe')`. -/
def exChain : Selector × Except String Selector :=
  chain (chain (chain (chain (chain (cssSelectorBuilder.element "elem")
    (Selector.id "id")) (Selector.cls "cls")) (Selector.attr "attr"))
    (Selector.pseudoClass "pc")) (Selector.pseudoElement "pe")

/-- The spec's combinator example:
`combine(element('div').id('main'), '+', element('table'))`. -/
def exCombine : Selector × Except String Selector :=
  cssSelectorBuilder.combine
    (chain (cssSelectorBuilder.element "div") (Selector.id "main")).1 "+"
    (cssSelectorBuilder.element "table").1

/-! ## Reachability

One abstract builder operation, and the states reachable from a fresh
builder by any sequence of operations (errors may be caught by the caller,
so after a throwing call the — possibly cache-mutated — object can still be
used; `runAll` therefore keeps the post-state of every call, thrown or not). -/

inductive Op where
  | element (v : String)
  | id (v : String)
  | cls (v : String)
  | attr (v : String)
  | pseudoClass (v : String)
  | pseudoElement (v : String)
  | combine (l : Selector) (c : String) (r : Selector)

def applyOp : Op → Selector → Selector × Except String Selector
  | .element v, s => Selector.element v s
  | .id v, s => Selector.id v s
  | .cls v, s => Selector.cls v s
  | .attr v, s => Selector.attr v s
  | .pseudoClass v, s => Selector.pseudoClass v s
  | .pseudoElement v, s => Selector.pseudoElement v s
  | .combine l c r, s => Selector.combine l c r s

def runAll (ops : List Op) (s : Selector) : Selector :=
  ops.foldl (fun st op => (applyOp op st).1) s

/-- A builder state an adversarial caller can actually produce. -/
def Reachable (s : Selector) : Prop := ∃ ops, runAll ops Selector.new = s

/-- The common shape of `element`, `id`, `pseudoElement`. -/
def singleUnique (cat v : String) (s : Selector) : Selector × Except String Selector :=
  match s.validate cat with
  | (s1, some e) => (s1, .error e)
  | (s1, none) =>
    match s1.tryPush (.single v cat) with
    | (s2, some e) => (s2, .error e)
    | (s2, none) => (s2, .ok s2)

/-- The common shape of `class`, `attr`, `pseudoClass`. -/
def singleDirect (cat v : String) (s : Selector) : Selector × Except String Selector :=
  match s.validate cat with
  | (s1, some e) => (s1, .error e)
  | (s1, none) =>
    let s2 := Selector.mk (s1.selectors ++ [.single v cat]) s1.validSort
    (s2, .ok s2)

/-- The boolean outcome of the order scan of `validate`. -/
def orderBad (s : Selector) (cat : String) : Bool :=
  (newSort s).any (fun val => rank val > rank cat)

/-! ## The reachable-state invariant

`validSort` is populated at most once, from the fragment types present at
that moment; afterwards it is stale.  Two facts hold in every reachable
state: (a) every cached category ranks no higher than any single-token
category present in the sequence, and (b) while the cache is still empty the
sequence holds at most one kind of single-token fragment (so all its
single-token types coincide). -/

def Inv (s : Selector) : Prop :=
  (∀ v ∈ s.validSort, ∀ t ∈ typesOf s, t ∈ sortSelectors → rank v ≤ rank t) ∧
  (s.validSort = [] → ∀ a ∈ typesOf s, ∀ b ∈ typesOf s,
    a ∈ sortSelectors → b ∈ sortSelectors → a = b)

/-! ## The builder state of the stale-cache run `element('a').class('c')` -/

def c1state : Selector := (chain (cssSelectorBuilder.element "a") (Selector.cls "c")).1

/-! ## JSON: `getJSON` and `fromJSON`

`getJSON(obj)` is `JSON.stringify(obj)` and `fromJSON(proto, json)` is
`Object.setPrototypeOf(JSON.parse(json), proto)`.  The host's JSON builtins
are modelled executably over a JSON value type: numbers are modelled as
integers (floating-point serialization is out of scope), and string escaping
covers the quote and backslash (the characters `JSON.stringify` escapes in
strings free of control characters); `JSON.parse` is modelled on the
whitespace-free grammar `JSON.stringify` emits and, like the host, rejects
trailing input. -/

inductive JVal where
  | null
  | bool (b : Bool)
  | num (n : Int)
  | str (s : String)
  | arr (items : List JVal)
  | obj (members : List (String × JVal))

/-- Decimal digits of a natural number, most significant first. -/
def digitsOf (n : Nat) : List Char :=
  if h : n < 10 then [Nat.digitChar n]
  else digitsOf (n / 10) ++ [Nat.digitChar (n % 10)]
decreasing_by exact Nat.div_lt_self (by omega) (by decide)

/-- `JSON.stringify` on an integral number. -/
def serInt (n : Int) : List Char :=
  if n < 0 then '-' :: digitsOf n.natAbs else digitsOf n.toNat

/-- String escaping: quote and backslash get a leading backslash. -/
def escChar (c : Char) : List Char :=
  if c = '"' ∨ c = '\\' then ['\\', c] else [c]

def serStrBody : List Char → List Char
  | [] => []
  | c :: cs => escChar c ++ serStrBody cs

/-- `JSON.stringify` on a string: quoted, with the body escaped. -/
def serStr (s : List Char) : List Char := '"' :: (serStrBody s ++ ['"'])

mutual

/-- `JSON.stringify` (compact form: no whitespace). -/
def jser : JVal → List Char
  | .null => 'n' :: 'u' :: 'l' :: 'l' :: []
  | .bool true => 't' :: 'r' :: 'u' :: 'e' :: []
  | .bool false => 'f' :: 'a' :: 'l' :: 's' :: 'e' :: []
  | .num n => serInt n
  | .str s => serStr s.data
  | .arr items => '[' :: (serElems items ++ [']'])
  | .obj ms => '{' :: (serMembers ms ++ ['}'])

/-- Array elements joined by commas. -/
def serElems : List JVal → List Char
  | [] => []
  | [v] => jser v
  | v :: vs => jser v ++ ',' :: serElems vs

/-- Object members `"key":value` joined by commas. -/
def serMembers : List (String × JVal) → List Char
  | [] => []
  | [(k, v)] => serStr k.data ++ ':' :: jser v
  | (k, v) :: ms => serStr k.data ++ ':' :: jser v ++ ',' :: serMembers ms

end

mutual

/-- Fuel sufficient for `parseVal` to parse the serialization of a value. -/
def jfuel : JVal → Nat
  | .null => 1
  | .bool _ => 1
  | .num _ => 1
  | .str _ => 1
  | .arr items => 1 + jfuelElems items
  | .obj ms => 1 + jfuelMembers ms

def jfuelElems : List JVal → Nat
  | [] => 0
  | v :: vs => 1 + jfuel v + jfuelElems vs

def jfuelMembers : List (String × JVal) → Nat
  | [] => 0
  | (_, v) :: ms => 1 + jfuel v + jfuelMembers ms

end

/-- The value a backslash escape denotes. -/
def unesc (c : Char) : Char :=
  if c = 'n' then '\n' else if c = 't' then '\t' else if c = 'r' then '\r' else c

/-- Parse a string body up to and including the closing quote. -/
def parseStrBody : List Char → Option (List Char × List Char)
  | [] => none
  | c :: cs =>
    if c = '\\' then
      match cs with
      | [] => none
      | c2 :: cs2 => (parseStrBody cs2).map (fun p => (unesc c2 :: p.1, p.2))
    else if c = '"' then some ([], cs)
    else (parseStrBody cs).map (fun p => (c :: p.1, p.2))

def digitVal (c : Char) : Nat := c.toNat - 48

/-- Consume a maximal run of decimal digits, accumulating left to right. -/
def parseDigits (acc : Nat) : List Char → Nat × List Char
  | [] => (acc, [])
  | c :: cs =>
    if c.isDigit then parseDigits (acc * 10 + digitVal c) cs else (acc, c :: cs)

/-- Parse a natural number literal (at least one digit). -/
def parseNat : List Char → Option (Nat × List Char)
  | [] => none
  | c :: cs =>
    if c.isDigit then some (parseDigits (digitVal c) cs) else none

/-- Expect an exact literal tail (used for `null`, `true`, `false`). -/
def expectLit (lit : List Char) (cs : List Char) (v : JVal) :
    Option (JVal × List Char) :=
  if cs.take lit.length = lit then some (v, cs.drop lit.length) else none

/-- Does the input start with a decimal digit? -/
def headDigit : List Char → Bool
  | [] => false
  | c :: _ => c.isDigit

mutual

/-- `JSON.parse` on the compact grammar, fuelled (one unit per nesting
step); returns the value and the unconsumed input. -/
def parseVal : Nat → List Char → Option (JVal × List Char)
  | 0, _ => none
  | _ + 1, [] => none
  | fuel + 1, c :: cs =>
    if c = 'n' then expectLit ['u', 'l', 'l'] cs JVal.null
    else if c = 't' then expectLit ['r', 'u', 'e'] cs (JVal.bool true)
    else if c = 'f' then expectLit ['a', 'l', 's', 'e'] cs (JVal.bool false)
    else if c = '"' then
      (parseStrBody cs).map (fun p => (JVal.str ⟨p.1⟩, p.2))
    else if c = '-' then
      (parseNat cs).map (fun p => (JVal.num (-(p.1 : Int)), p.2))
    else if c.isDigit then
      (parseNat (c :: cs)).map (fun p => (JVal.num (p.1 : Int), p.2))
    else if c = '[' then
      match cs with
      | [] => none
      | d :: ds =>
        if d = ']' then some (JVal.arr [], ds)
        else (parseElems fuel (d :: ds)).map (fun p => (JVal.arr p.1, p.2))
    else if c = '{' then
      match cs with
      | [] => none
      | d :: ds =>
        if d = '}' then some (JVal.obj [], ds)
        else (parseMembers fuel (d :: ds)).map (fun p => (JVal.obj p.1, p.2))
    else none

/-- One or more comma-separated elements, up to and including `]`. -/
def parseElems : Nat → List Char → Option (List JVal × List Char)
  | 0, _ => none
  | fuel + 1, cs =>
    match parseVal fuel cs with
    | none => none
    | some (v, r) =>
      match r with
      | [] => none
      | c :: r2 =>
        if c = ',' then (parseElems fuel r2).map (fun p => (v :: p.1, p.2))
        else if c = ']' then some ([v], r2)
        else none

/-- One or more comma-separated `"key":value` members, up to and including
`}`. -/
def parseMembers : Nat → List Char → Option (List (String × JVal) × List Char)
  | 0, _ => none
  | fuel + 1, cs =>
    match cs with
    | [] => none
    | c :: cs2 =>
      if c = '"' then
        match parseStrBody cs2 with
        | none => none
        | some (k, r) =>
          match r with
          | [] => none
          | c2 :: r2 =>
            if c2 = ':' then
              match parseVal fuel r2 with
              | none => none
              | some (v, r3) =>
                match r3 with
                | [] => none
                | c3 :: r4 =>
                  if c3 = ',' then
                    (parseMembers fuel r4).map (fun p => ((⟨k⟩, v) :: p.1, p.2))
                  else if c3 = '}' then some ([(⟨k⟩, v)], r4)
                  else none
            else none
      else none

end

/-- The host `JSON.parse` entry point: fuel one more than the input length
(each nesting level consumes at least one character). -/
def jparse (cs : List Char) : Option (JVal × List Char) :=
  parseVal (cs.length + 1) cs

/-- A prototype method: a function of the receiver's own fields and one
argument. -/
def JMethod : Type := List (String × JVal) → JVal → JVal

/-- A JavaScript object: own enumerable data fields plus the prototype's
capability set. -/
structure JSObject where
  fields : List (String × JVal)
  proto : List (String × JMethod)

/-- Building an instance from a capability set and field data directly. -/
def mkObject (proto : List (String × JMethod)) (fields : List (String × JVal)) :
    JSObject :=
  ⟨fields, proto⟩

/-- Method dispatch: look the name up on the prototype and invoke it with
the receiver's fields. -/
def callMethod (o : JSObject) (name : String) (arg : JVal) : Option JVal :=
  match o.proto.find? (fun p => p.1 == name) with
  | some p => some (p.2 o.fields arg)
  | none => none

/-- `getJSON(obj) { return JSON.stringify(obj); }` -/
def getJSON (obj : JVal) : String := ⟨jser obj⟩

/-- `JSON.stringify` applied to an object serializes its own enumerable
fields. -/
def serializeObj (x : JSObject) : String := getJSON (JVal.obj x.fields)

/-- `fromJSON(proto, json) { return Object.setPrototypeOf(JSON.parse(json), proto); }` —
the parsed object's fields with the supplied prototype attached (`none` when
the text does not parse as one whole object). -/
def fromJSON (proto : List (String × JMethod)) (json : String) : Option JSObject :=
  match jparse json.data with
  | some (JVal.obj fields, []) => some ⟨fields, proto⟩
  | _ => none

/-! ## Basic lemmas about ranks and the validation cache -/

theorem rank_nonneg_of_mem {t : String} (h : t ∈ sortSelectors) : 0 ≤ rank t := by
  simp only [sortSelectors, List.mem_cons, List.not_mem_nil, or_false] at h
  rcases h with rfl | rfl | rfl | rfl | rfl | rfl <;> decide

theorem rank_neg_of_not_mem {t : String} (h : t ∉ sortSelectors) : rank t = -1 := by
  simp only [sortSelectors, List.mem_cons, List.not_mem_nil, or_false, not_or] at h
  obtain ⟨h1, h2, h3, h4, h5, h6⟩ := h
  simp [rank, jsIndexOf, jsIndexOfAux, Ne.symm h1, Ne.symm h2, Ne.symm h3,
    Ne.symm h4, Ne.symm h5, Ne.symm h6]

theorem typesOf_mk (es : List SelectorFrag) (vs : List String) :
    typesOf (Selector.mk es vs) = es.map SelectorFrag.type := rfl

theorem newSort_eq_nil {s : Selector} (h : newSort s = []) :
    s.validSort = [] ∧ typesOf s = [] := by
  unfold newSort at h
  split at h
  · next he => simp only [List.isEmpty_iff] at he; simp_all
  · next he => simp only [List.isEmpty_iff] at he; exact absurd h he

theorem newSort_cases (s : Selector) :
    newSort s = s.validSort ∨ (s.validSort = [] ∧ newSort s = typesOf s) := by
  unfold newSort
  split
  · next he => simp only [List.isEmpty_iff] at he; right; simp [he]
  · left; rfl

/-! ## Case characterizations of the operations

Each single-token method is definitionally one of two generic shapes
(`validate`-then-`tryPush`, or `validate`-then-direct-push); the shapes are
characterized by the boolean outcomes of the order scan and the duplicate
scan. -/

theorem selectors_mk (es : List SelectorFrag) (vs : List String) :
    (Selector.mk es vs).selectors = es := rfl

theorem validSort_mk (es : List SelectorFrag) (vs : List String) :
    (Selector.mk es vs).validSort = vs := rfl

theorem element_eq (v : String) (s : Selector) :
    Selector.element v s = singleUnique "element" v s := rfl

theorem id_eq (v : String) (s : Selector) :
    Selector.id v s = singleUnique "id" v s := rfl

theorem pseudoElement_eq (v : String) (s : Selector) :
    Selector.pseudoElement v s = singleUnique "pseudoElement" v s := rfl

theorem cls_eq (v : String) (s : Selector) :
    Selector.cls v s = singleDirect "class" v s := rfl

theorem attr_eq (v : String) (s : Selector) :
    Selector.attr v s = singleDirect "attr" v s := rfl

theorem pseudoClass_eq (v : String) (s : Selector) :
    Selector.pseudoClass v s = singleDirect "pseudoClass" v s := rfl

theorem validate_eq_of_orderBad {s : Selector} {cat : String}
    (h : orderBad s cat = true) :
    s.validate cat = (Selector.mk s.selectors (newSort s), some orderMsg) := by
  rw [orderBad] at h
  rw [Selector.validate, if_pos h]

theorem validate_eq_of_not_orderBad {s : Selector} {cat : String}
    (h : orderBad s cat = false) :
    s.validate cat = (Selector.mk s.selectors (newSort s), none) := by
  rw [orderBad] at h
  rw [Selector.validate, if_neg (by simp [h])]

theorem singleUnique_order_error {s : Selector} {cat : String} (v : String)
    (h : orderBad s cat = true) :
    singleUnique cat v s = (Selector.mk s.selectors (newSort s), .error orderMsg) := by
  rw [singleUnique, validate_eq_of_orderBad h]

theorem singleUnique_dup_error {s : Selector} {cat : String} (v : String)
    (h1 : orderBad s cat = false)
    (h2 : incl (SelectorFrag.single v cat) s.selectors = true) :
    singleUnique cat v s = (Selector.mk s.selectors (newSort s), .error dupMsg) := by
  rw [singleUnique, validate_eq_of_not_orderBad h1]
  show (match (Selector.mk s.selectors (newSort s)).tryPush (SelectorFrag.single v cat) with
    | (s2, some e) => ((s2, Except.error e) : Selector × Except String Selector)
    | (s2, none) => (s2, Except.ok s2)) = _
  rw [Selector.tryPush, if_pos (show incl (SelectorFrag.single v cat)
    (Selector.mk s.selectors (newSort s)).selectors = true from h2)]

theorem singleUnique_ok {s : Selector} {cat : String} (v : String)
    (h1 : orderBad s cat = false)
    (h2 : incl (SelectorFrag.single v cat) s.selectors = false) :
    singleUnique cat v s =
      (Selector.mk (s.selectors ++ [SelectorFrag.single v cat]) (newSort s),
       .ok (Selector.mk (s.selectors ++ [SelectorFrag.single v cat]) (newSort s))) := by
  rw [singleUnique, validate_eq_of_not_orderBad h1]
  show (match (Selector.mk s.selectors (newSort s)).tryPush (SelectorFrag.single v cat) with
    | (s2, some e) => ((s2, Except.error e) : Selector × Except String Selector)
    | (s2, none) => (s2, Except.ok s2)) = _
  rw [Selector.tryPush, if_neg (by
    show ¬ incl (SelectorFrag.single v cat) (Selector.mk s.selectors (newSort s)).selectors = true
    simp [selectors_mk, h2])]
  rfl

theorem singleDirect_order_error {s : Selector} {cat : String} (v : String)
    (h : orderBad s cat = true) :
    singleDirect cat v s = (Selector.mk s.selectors (newSort s), .error orderMsg) := by
  rw [singleDirect, validate_eq_of_orderBad h]

theorem singleDirect_ok {s : Selector} {cat : String} (v : String)
    (h : orderBad s cat = false) :
    singleDirect cat v s =
      (Selector.mk (s.selectors ++ [SelectorFrag.single v cat]) (newSort s),
       .ok (Selector.mk (s.selectors ++ [SelectorFrag.single v cat]) (newSort s))) := by
  rw [singleDirect, validate_eq_of_not_orderBad h]
  rfl

theorem combine_dup_error {s : Selector} (l : Selector) (c : String) (r : Selector)
    (h : incl (SelectorFrag.comb l c r) s.selectors = true) :
    Selector.combine l c r s = (s, .error dupMsg) := by
  rw [Selector.combine, Selector.tryPush, if_pos h]

theorem combine_ok {s : Selector} (l : Selector) (c : String) (r : Selector)
    (h : incl (SelectorFrag.comb l c r) s.selectors = false) :
    Selector.combine l c r s =
      (Selector.mk (s.selectors ++ [SelectorFrag.comb l c r]) s.validSort,
       .ok (Selector.mk (s.selectors ++ [SelectorFrag.comb l c r]) s.validSort)) := by
  rw [Selector.combine, Selector.tryPush, if_neg (by simp [h])]

theorem incl_eq_true_iff (f : SelectorFrag) (l : List SelectorFrag) :
    incl f l = true ↔ f.type ∈ l.map SelectorFrag.type := by
  simp [incl, List.mem_map]

theorem newSort_rank_le {s : Selector} (h : Inv s) :
    ∀ v ∈ newSort s, ∀ t ∈ typesOf s, t ∈ sortSelectors → rank v ≤ rank t := by
  rcases newSort_cases s with hc | ⟨hnil, hc⟩
  · rw [hc]; exact h.1
  · rw [hc]
    intro v hv t ht htmem
    by_cases hvmem : v ∈ sortSelectors
    · rw [h.2 hnil v hv t ht hvmem htmem]
    · rw [rank_neg_of_not_mem hvmem]
      have := rank_nonneg_of_mem htmem
      omega

theorem orderBad_false_of_inv {s : Selector} (h : Inv s) {cat : String}
    (hmem : cat ∈ typesOf s) (hcat : cat ∈ sortSelectors) :
    orderBad s cat = false := by
  rw [orderBad]
  rw [List.any_eq_false]
  intro v hv
  simp only [decide_eq_true_eq, not_lt]
  exact newSort_rank_le h v hv cat hmem hcat

theorem Inv_validated {s : Selector} (h : Inv s) :
    Inv (Selector.mk s.selectors (newSort s)) := by
  constructor
  · intro v hv t ht htmem
    exact newSort_rank_le h v hv t ht htmem
  · intro hnil
    rcases newSort_eq_nil hnil with ⟨hvs, hts⟩
    intro a ha
    rw [typesOf_mk] at ha
    rw [show s.selectors.map SelectorFrag.type = typesOf s from rfl, hts] at ha
    exact absurd ha (List.not_mem_nil a)

theorem Inv_pushed {s : Selector} (h : Inv s) {cat : String} (v : String)
    (hpass : orderBad s cat = false) (hcat : cat ∈ sortSelectors) :
    Inv (Selector.mk (s.selectors ++ [SelectorFrag.single v cat]) (newSort s)) := by
  have hle : ∀ w ∈ newSort s, rank w ≤ rank cat := by
    rw [orderBad, List.any_eq_false] at hpass
    intro w hw
    have := hpass w hw
    simp only [decide_eq_true_eq, not_lt] at this
    exact this
  constructor
  · intro w hw t ht htmem
    rw [typesOf_mk, List.map_append] at ht
    rcases List.mem_append.1 ht with ht | ht
    · exact newSort_rank_le h w hw t ht htmem
    · simp only [List.map_cons, List.map_nil, List.mem_singleton] at ht
      subst ht
      exact hle w hw
  · intro hnil
    rcases newSort_eq_nil hnil with ⟨hvs, hts⟩
    intro a ha b hb _ _
    rw [typesOf_mk, List.map_append,
      show s.selectors.map SelectorFrag.type = typesOf s from rfl, hts] at ha hb
    simp only [List.nil_append, List.map_cons, List.map_nil, List.mem_singleton] at ha hb
    rw [ha, hb]

theorem combine_not_mem_sortSelectors : "combine" ∉ sortSelectors := by decide

theorem Inv_new : Inv Selector.new := by
  constructor
  · intro v hv; exact absurd hv (List.not_mem_nil v)
  · intro _ a ha; exact absurd ha (List.not_mem_nil a)

theorem singleUnique_preserves_Inv {s : Selector} (h : Inv s) (cat v : String)
    (hcat : cat ∈ sortSelectors) : Inv (singleUnique cat v s).1 := by
  cases horder : orderBad s cat with
  | true =>
    rw [singleUnique_order_error v horder]
    exact Inv_validated h
  | false =>
    cases hincl : incl (SelectorFrag.single v cat) s.selectors with
    | true =>
      rw [singleUnique_dup_error v horder hincl]
      exact Inv_validated h
    | false =>
      rw [singleUnique_ok v horder hincl]
      exact Inv_pushed h v horder hcat

theorem singleDirect_preserves_Inv {s : Selector} (h : Inv s) (cat v : String)
    (hcat : cat ∈ sortSelectors) : Inv (singleDirect cat v s).1 := by
  cases horder : orderBad s cat with
  | true =>
    rw [singleDirect_order_error v horder]
    exact Inv_validated h
  | false =>
    rw [singleDirect_ok v horder]
    exact Inv_pushed h v horder hcat

theorem combine_preserves_Inv {s : Selector} (h : Inv s) (l : Selector) (c : String)
    (r : Selector) : Inv (Selector.combine l c r s).1 := by
  cases hincl : incl (SelectorFrag.comb l c r) s.selectors with
  | true =>
    rw [combine_dup_error l c r hincl]
    exact h
  | false =>
    rw [combine_ok l c r hincl]
    constructor
    · intro w hw t ht htmem
      rw [typesOf_mk, List.map_append] at ht
      rcases List.mem_append.1 ht with ht | ht
      · exact h.1 w hw t ht htmem
      · simp only [List.map_cons, List.map_nil, List.mem_singleton] at ht
        subst ht
        exact absurd htmem combine_not_mem_sortSelectors
    · intro hnil a ha b hb hamem hbmem
      rw [typesOf_mk, List.map_append] at ha hb
      have hcomb : ∀ x, x ∈ ([SelectorFrag.comb l c r].map SelectorFrag.type) → x = "combine" := by
        intro x hx
        simpa using hx
      rcases List.mem_append.1 ha with ha' | ha'
      · rcases List.mem_append.1 hb with hb' | hb'
        · exact h.2 hnil a ha' b hb' hamem hbmem
        · rw [hcomb b hb'] at hbmem
          exact absurd hbmem combine_not_mem_sortSelectors
      · rw [hcomb a ha'] at hamem
        exact absurd hamem combine_not_mem_sortSelectors

theorem applyOp_preserves_Inv (op : Op) (s : Selector) (h : Inv s) :
    Inv (applyOp op s).1 := by
  cases op with
  | element v => rw [applyOp, element_eq]; exact singleUnique_preserves_Inv h _ v (by decide)
  | id v => rw [applyOp, id_eq]; exact singleUnique_preserves_Inv h _ v (by decide)
  | pseudoElement v =>
    rw [applyOp, pseudoElement_eq]; exact singleUnique_preserves_Inv h _ v (by decide)
  | cls v => rw [applyOp, cls_eq]; exact singleDirect_preserves_Inv h _ v (by decide)
  | attr v => rw [applyOp, attr_eq]; exact singleDirect_preserves_Inv h _ v (by decide)
  | pseudoClass v =>
    rw [applyOp, pseudoClass_eq]; exact singleDirect_preserves_Inv h _ v (by decide)
  | combine l c r => rw [applyOp]; exact combine_preserves_Inv h l c r

theorem runAll_preserves_Inv (ops : List Op) (s : Selector) (h : Inv s) :
    Inv (runAll ops s) := by
  induction ops generalizing s with
  | nil => exact h
  | cons op ops ih =>
    exact ih (applyOp op s).1 (applyOp_preserves_Inv op s h)

theorem Reachable.inv {s : Selector} (h : Reachable s) : Inv s := by
  obtain ⟨ops, hops⟩ := h
  rw [← hops]
  exact runAll_preserves_Inv ops Selector.new Inv_new

/-! ## Consequences for duplicate handling on reachable states -/

theorem singleUnique_dup_of_inv {s : Selector} (h : Inv s) {cat : String}
    (hmem : cat ∈ typesOf s) (hcat : cat ∈ sortSelectors) (v : String) :
    singleUnique cat v s = (Selector.mk s.selectors (newSort s), .error dupMsg) := by
  have horder := orderBad_false_of_inv h hmem hcat
  have hincl : incl (SelectorFrag.single v cat) s.selectors = true :=
    (incl_eq_true_iff _ _).2 hmem
  exact singleUnique_dup_error v horder hincl

theorem singleDirect_ok_of_inv {s : Selector} (h : Inv s) {cat : String}
    (hmem : cat ∈ typesOf s) (hcat : cat ∈ sortSelectors) (v : String) :
    singleDirect cat v s =
      (Selector.mk (s.selectors ++ [SelectorFrag.single v cat]) (newSort s),
       .ok (Selector.mk (s.selectors ++ [SelectorFrag.single v cat]) (newSort s))) :=
  singleDirect_ok v (orderBad_false_of_inv h hmem hcat)

/-! ## `stringify` lemmas -/

theorem selStr_mk (es : List SelectorFrag) (vs : List String) :
    selStr (Selector.mk es vs) = listStr es "" := rfl

/-- `stringify` reads only the fragment sequence, never the order cache. -/
theorem selStr_congr {s1 s2 : Selector} (h : s1.selectors = s2.selectors) :
    selStr s1 = selStr s2 := by
  cases s1 with
  | mk es1 vs1 =>
    cases s2 with
    | mk es2 vs2 =>
      simp only [Selector.selectors] at h
      rw [selStr_mk, selStr_mk, h]

theorem listStr_acc (es : List SelectorFrag) (acc : String) :
    listStr es acc = acc ++ listStr es "" := by
  induction es generalizing acc with
  | nil => simp [listStr]
  | cons e es ih =>
    rw [listStr, listStr, ih (acc ++ fragStr e), ih ("" ++ fragStr e)]
    simp [String.append_assoc]

theorem listStr_append (es1 es2 : List SelectorFrag) :
    listStr (es1 ++ es2) "" = listStr es1 "" ++ listStr es2 "" := by
  induction es1 with
  | nil => simp [listStr]
  | cons e es ih =>
    rw [List.cons_append, listStr, listStr, listStr_acc es _, listStr_acc es _,
      listStr_acc (es ++ es2) _]
    rw [ih]
    simp [String.append_assoc]

/-- Rendering is a concatenation homomorphism on the fragment sequence:
fragments are rendered in sequence order with no separators. -/
theorem selStr_append (es1 es2 : List SelectorFrag) (vs : List String) :
    selStr (Selector.mk (es1 ++ es2) vs) =
      selStr (Selector.mk es1 vs) ++ selStr (Selector.mk es2 vs) := by
  rw [selStr_mk, selStr_mk, selStr_mk, listStr_append]

theorem selStr_singleton (f : SelectorFrag) (vs : List String) :
    selStr (Selector.mk [f] vs) = fragStr f := by
  rw [selStr_mk, listStr, listStr]
  simp

/-! ## Failed calls leave the fragment sequence untouched -/

theorem singleUnique_error_frame {s : Selector} {cat v e : String}
    (h : (singleUnique cat v s).2 = .error e) :
    (singleUnique cat v s).1.selectors = s.selectors := by
  cases horder : orderBad s cat with
  | true => rw [singleUnique_order_error v horder, selectors_mk]
  | false =>
    cases hincl : incl (SelectorFrag.single v cat) s.selectors with
    | true => rw [singleUnique_dup_error v horder hincl, selectors_mk]
    | false =>
      rw [singleUnique_ok v horder hincl] at h
      exact absurd h (by simp)

theorem singleDirect_error_frame {s : Selector} {cat v e : String}
    (h : (singleDirect cat v s).2 = .error e) :
    (singleDirect cat v s).1.selectors = s.selectors := by
  cases horder : orderBad s cat with
  | true => rw [singleDirect_order_error v horder, selectors_mk]
  | false =>
    rw [singleDirect_ok v horder] at h
    exact absurd h (by simp)

theorem combine_error_frame {s l r : Selector} {c e : String}
    (h : (Selector.combine l c r s).2 = .error e) :
    (Selector.combine l c r s).1.selectors = s.selectors := by
  cases hincl : incl (SelectorFrag.comb l c r) s.selectors with
  | true => rw [combine_dup_error l c r hincl]
  | false =>
    rw [combine_ok l c r hincl] at h
    exact absurd h (by simp)

theorem applyOp_error_frame (op : Op) (s : Selector) (e : String)
    (h : (applyOp op s).2 = .error e) :
    (applyOp op s).1.selectors = s.selectors := by
  cases op with
  | element v =>
    rw [applyOp, element_eq] at h ⊢; exact singleUnique_error_frame h
  | id v =>
    rw [applyOp, id_eq] at h ⊢; exact singleUnique_error_frame h
  | pseudoElement v =>
    rw [applyOp, pseudoElement_eq] at h ⊢; exact singleUnique_error_frame h
  | cls v =>
    rw [applyOp, cls_eq] at h ⊢; exact singleDirect_error_frame h
  | attr v =>
    rw [applyOp, attr_eq] at h ⊢; exact singleDirect_error_frame h
  | pseudoClass v =>
    rw [applyOp, pseudoClass_eq] at h ⊢; exact singleDirect_error_frame h
  | combine l c r =>
    rw [applyOp] at h ⊢; exact combine_error_frame h

/-- Every operation returns `this`: whenever a call succeeds, the returned
builder is the post-state of the receiver. -/
theorem applyOp_returns_this (op : Op) (s : Selector) (r : Selector)
    (h : (applyOp op s).2 = .ok r) : r = (applyOp op s).1 := by
  have unique_case : ∀ cat v, (singleUnique cat v s).2 = .ok r →
      r = (singleUnique cat v s).1 := by
    intro cat v h
    cases horder : orderBad s cat with
    | true =>
      rw [singleUnique_order_error v horder] at h
      exact absurd h (by simp)
    | false =>
      cases hincl : incl (SelectorFrag.single v cat) s.selectors with
      | true =>
        rw [singleUnique_dup_error v horder hincl] at h
        exact absurd h (by simp)
      | false =>
        rw [singleUnique_ok v horder hincl] at h ⊢
        simp only [Except.ok.injEq] at h
        rw [← h]
  have direct_case : ∀ cat v, (singleDirect cat v s).2 = .ok r →
      r = (singleDirect cat v s).1 := by
    intro cat v h
    cases horder : orderBad s cat with
    | true =>
      rw [singleDirect_order_error v horder] at h
      exact absurd h (by simp)
    | false =>
      rw [singleDirect_ok v horder] at h ⊢
      simp only [Except.ok.injEq] at h
      rw [← h]
  cases op with
  | element v => rw [applyOp, element_eq] at h ⊢; exact unique_case _ v h
  | id v => rw [applyOp, id_eq] at h ⊢; exact unique_case _ v h
  | pseudoElement v => rw [applyOp, pseudoElement_eq] at h ⊢; exact unique_case _ v h
  | cls v => rw [applyOp, cls_eq] at h ⊢; exact direct_case _ v h
  | attr v => rw [applyOp, attr_eq] at h ⊢; exact direct_case _ v h
  | pseudoClass v => rw [applyOp, pseudoClass_eq] at h ⊢; exact direct_case _ v h
  | combine l c r =>
    rw [applyOp] at h ⊢
    cases hincl : incl (SelectorFrag.comb l c r) s.selectors with
    | true =>
      rw [combine_dup_error l c r hincl] at h
      exact absurd h (by simp)
    | false =>
      rw [combine_ok l c r hincl] at h ⊢
      simp only [Except.ok.injEq] at h
      rw [← h]

/-! ## Digit lemmas -/

theorem digitChar_isDigit {n : Nat} (h : n < 10) : (Nat.digitChar n).isDigit = true := by
  interval_cases n <;> decide

theorem digitVal_digitChar {n : Nat} (h : n < 10) : digitVal (Nat.digitChar n) = n := by
  interval_cases n <;> decide

theorem digitsOf_head : ∀ n : Nat, ∃ c cs, digitsOf n = c :: cs ∧ c.isDigit = true := by
  intro n
  induction n using Nat.strong_induction_on with
  | _ n ih =>
    rw [digitsOf]
    split
    · next h => exact ⟨Nat.digitChar n, [], rfl, digitChar_isDigit h⟩
    · next h =>
      obtain ⟨c, cs, hc, hdig⟩ := ih (n / 10) (Nat.div_lt_self (by omega) (by decide))
      exact ⟨c, cs ++ [Nat.digitChar (n % 10)], by rw [hc]; rfl, hdig⟩

theorem parseDigits_stop {acc : Nat} {rest : List Char} (h : headDigit rest = false) :
    parseDigits acc rest = (acc, rest) := by
  cases rest with
  | nil => rfl
  | cons c cs =>
    rw [headDigit] at h
    rw [parseDigits, if_neg]
    simp [h]

theorem parseDigits_digitsOf : ∀ n acc rest,
    parseDigits acc (digitsOf n ++ rest) =
      parseDigits (acc * 10 ^ (digitsOf n).length + n) rest := by
  intro n
  induction n using Nat.strong_induction_on with
  | _ n ih =>
    intro acc rest
    rw [digitsOf]
    split
    · next h =>
      rw [List.singleton_append, List.length_singleton, parseDigits,
        if_pos (digitChar_isDigit h), digitVal_digitChar h, pow_one]
    · next h =>
      rw [List.append_assoc, List.singleton_append,
        ih (n / 10) (Nat.div_lt_self (by omega) (by decide)), parseDigits,
        if_pos (digitChar_isDigit (Nat.mod_lt n (by decide))),
        digitVal_digitChar (Nat.mod_lt n (by decide))]
      have harg :
          (acc * 10 ^ (digitsOf (n / 10)).length + n / 10) * 10 + n % 10 =
            acc * 10 ^ (digitsOf (n / 10) ++ [Nat.digitChar (n % 10)]).length + n := by
        rw [List.length_append, List.length_singleton, pow_succ]
        have hA : acc * 10 ^ (digitsOf (n / 10)).length * 10 =
            acc * (10 ^ (digitsOf (n / 10)).length * 10) := by ring
        generalize acc * 10 ^ (digitsOf (n / 10)).length = A at hA ⊢
        omega
      rw [harg]

theorem parseNat_digitsOf (n : Nat) (rest : List Char) (h : headDigit rest = false) :
    parseNat (digitsOf n ++ rest) = some (n, rest) := by
  obtain ⟨c, cs, hd, hdig⟩ := digitsOf_head n
  have h1 : parseDigits 0 (digitsOf n ++ rest) = (n, rest) := by
    rw [parseDigits_digitsOf]
    simp only [Nat.zero_mul, Nat.zero_add]
    exact parseDigits_stop h
  rw [hd, List.cons_append] at h1 ⊢
  rw [parseNat, if_pos hdig]
  rw [parseDigits, if_pos hdig] at h1
  simp only [Nat.zero_mul, Nat.zero_add] at h1
  rw [h1]

/-! ## String-body round trip -/

theorem unesc_of_escaped {c : Char} (h : c = '"' ∨ c = '\\') : unesc c = c := by
  rcases h with rfl | rfl <;> decide

theorem parseStrBody_serStrBody (s : List Char) (rest : List Char) :
    parseStrBody (serStrBody s ++ '"' :: rest) = some (s, rest) := by
  induction s with
  | nil =>
    rw [serStrBody, List.nil_append, parseStrBody.eq_def]
    simp
  | cons c cs ih =>
    rw [serStrBody, escChar]
    by_cases hc : c = '"' ∨ c = '\\'
    · rw [if_pos hc, List.append_assoc, List.cons_append, List.cons_append,
        List.nil_append, parseStrBody.eq_def]
      simp [ih, unesc_of_escaped hc]
    · rw [if_neg hc]
      push_neg at hc
      rw [List.singleton_append, parseStrBody.eq_def]
      simp [hc.1, hc.2, ih]

/-! ## Serializations have recognizable heads -/

theorem isDigit_ne_special {c : Char} (h : c.isDigit = true) :
    c ≠ 'n' ∧ c ≠ 't' ∧ c ≠ 'f' ∧ c ≠ '"' ∧ c ≠ '-' ∧ c ≠ ']' := by
  refine ⟨?_, ?_, ?_, ?_, ?_, ?_⟩ <;>
    (rintro rfl; exact absurd h (by decide))

theorem jser_head_ne_rbracket : ∀ v : JVal, ∃ c cs, jser v = c :: cs ∧ c ≠ ']' := by
  intro v
  cases v with
  | null => exact ⟨'n', _, rfl, by decide⟩
  | bool b => cases b with
    | true => exact ⟨'t', _, rfl, by decide⟩
    | false => exact ⟨'f', _, rfl, by decide⟩
  | num n =>
    rw [jser, serInt]
    by_cases hn : n < 0
    · rw [if_pos hn]
      exact ⟨'-', _, rfl, by decide⟩
    · rw [if_neg hn]
      obtain ⟨c, cs, hd, hdig⟩ := digitsOf_head n.toNat
      exact ⟨c, cs, hd, (isDigit_ne_special hdig).2.2.2.2.2⟩
  | str s => exact ⟨'"', _, rfl, by decide⟩
  | arr items => exact ⟨'[', _, rfl, by decide⟩
  | obj ms => exact ⟨'{', _, rfl, by decide⟩

theorem serElems_cons_head (v : JVal) (vs : List JVal) :
    ∃ c cs, serElems (v :: vs) = c :: cs ∧ c ≠ ']' := by
  obtain ⟨c, cs0, hv, hne⟩ := jser_head_ne_rbracket v
  cases vs with
  | nil => exact ⟨c, cs0, by rw [serElems, hv], hne⟩
  | cons w ws =>
    refine ⟨c, cs0 ++ ',' :: serElems (w :: ws), ?_, hne⟩
    have : serElems (v :: w :: ws) = jser v ++ ',' :: serElems (w :: ws) := by
      simp [serElems]
    rw [this, hv]
    rfl

theorem serMembers_cons_head (k : String) (v : JVal) (tl : List (String × JVal)) :
    ∃ cs, serMembers ((k, v) :: tl) = '"' :: cs := by
  cases tl with
  | nil => exact ⟨_, by rw [serMembers, serStr]; rfl⟩
  | cons m tl' =>
    refine ⟨serStrBody k.data ++ ['"'] ++ ':' :: jser v ++ ',' :: serMembers (m :: tl'), ?_⟩
    have : serMembers ((k, v) :: m :: tl') =
        serStr k.data ++ ':' :: jser v ++ ',' :: serMembers (m :: tl') := by
      simp [serMembers]
    rw [this, serStr]
    rfl

/-! ## The parser inverts the serializer -/

theorem jfuel_pos (v : JVal) : 1 ≤ jfuel v := by
  cases v <;> simp [jfuel]

theorem jfuelElems_pos {items : List JVal} (h : items ≠ []) : 1 ≤ jfuelElems items := by
  cases items with
  | nil => exact absurd rfl h
  | cons v vs => rw [jfuelElems]; omega

theorem jfuelMembers_pos {ms : List (String × JVal)} (h : ms ≠ []) :
    1 ≤ jfuelMembers ms := by
  cases ms with
  | nil => exact absurd rfl h
  | cons m tl => obtain ⟨k, v⟩ := m; rw [jfuelMembers]; omega

theorem parse_roundtrip : ∀ fuel : Nat,
    (∀ v rest, jfuel v ≤ fuel → headDigit rest = false →
      parseVal fuel (jser v ++ rest) = some (v, rest)) ∧
    (∀ items rest, items ≠ [] → jfuelElems items ≤ fuel →
      parseElems fuel (serElems items ++ ']' :: rest) = some (items, rest)) ∧
    (∀ ms rest, ms ≠ [] → jfuelMembers ms ≤ fuel →
      parseMembers fuel (serMembers ms ++ '}' :: rest) = some (ms, rest)) := by
  intro fuel
  induction fuel with
  | zero =>
    refine ⟨?_, ?_, ?_⟩
    · intro v rest hf _; have := jfuel_pos v; omega
    · intro items rest hne hf; have := jfuelElems_pos hne; omega
    · intro ms rest hne hf; have := jfuelMembers_pos hne; omega
  | succ fuel ih =>
    obtain ⟨ihV, ihE, ihM⟩ := ih
    refine ⟨?_, ?_, ?_⟩
    · intro v rest hf hrest
      cases v with
      | null => simp [jser, parseVal, expectLit]
      | bool b => cases b <;> simp [jser, parseVal, expectLit]
      | num n =>
        rw [jser, serInt]
        by_cases hn : n < 0
        · rw [if_pos hn, List.cons_append]
          simp [parseVal, parseNat_digitsOf _ _ hrest]
          rw [abs_of_neg hn, neg_neg]
        · have htn : ((n.toNat : Nat) : Int) = n := by omega
          rw [if_neg hn]
          obtain ⟨c, cs, hd, hdig⟩ := digitsOf_head n.toNat
          obtain ⟨hc1, hc2, hc3, hc4, hc5, _⟩ := isDigit_ne_special hdig
          rw [hd, List.cons_append]
          simp only [parseVal]
          rw [if_neg hc1, if_neg hc2, if_neg hc3, if_neg hc4, if_neg hc5,
            if_pos hdig, ← List.cons_append, ← hd, parseNat_digitsOf _ _ hrest]
          simp [htn]
      | str s =>
        rw [jser, serStr, List.cons_append, List.append_assoc, List.singleton_append]
        simp [parseVal, parseStrBody_serStrBody]
      | arr items =>
        cases items with
        | nil => simp [jser, serElems, parseVal]
        | cons v vs =>
          obtain ⟨e, es, he, hne⟩ := serElems_cons_head v vs
          have hinput : jser (JVal.arr (v :: vs)) ++ rest =
              '[' :: (e :: (es ++ ']' :: rest)) := by
            rw [jser, he]
            simp [List.append_assoc]
          have hfe : jfuelElems (v :: vs) ≤ fuel := by
            rw [jfuel] at hf; omega
          have hpe : parseElems fuel (e :: (es ++ ']' :: rest)) = some (v :: vs, rest) := by
            have hback : e :: (es ++ ']' :: rest) = serElems (v :: vs) ++ ']' :: rest := by
              rw [he]; rfl
            rw [hback]
            exact ihE (v :: vs) rest (by simp) hfe
          rw [hinput]
          simp [parseVal, hne, hpe]
      | obj ms =>
        cases ms with
        | nil => simp [jser, serMembers, parseVal]
        | cons m tl =>
          obtain ⟨k, v⟩ := m
          obtain ⟨body, hb⟩ := serMembers_cons_head k v tl
          have hinput : jser (JVal.obj ((k, v) :: tl)) ++ rest =
              '{' :: ('"' :: (body ++ '}' :: rest)) := by
            rw [jser, hb]
            simp [List.append_assoc]
          have hfm : jfuelMembers ((k, v) :: tl) ≤ fuel := by
            rw [jfuel] at hf; omega
          have hpm : parseMembers fuel ('"' :: (body ++ '}' :: rest)) =
              some ((k, v) :: tl, rest) := by
            have hback : '"' :: (body ++ '}' :: rest) =
                serMembers ((k, v) :: tl) ++ '}' :: rest := by
              rw [hb]; rfl
            rw [hback]
            exact ihM ((k, v) :: tl) rest (by simp) hfm
          rw [hinput]
          simp [parseVal, hpm]
    · intro items rest hne hf
      cases items with
      | nil => exact absurd rfl hne
      | cons v vs =>
        cases vs with
        | nil =>
          rw [jfuelElems, jfuelElems] at hf
          rw [serElems]
          simp only [parseElems]
          rw [ihV v (']' :: rest) (by omega) (by simp [headDigit])]
          simp
        | cons w ws =>
          rw [jfuelElems] at hf
          have hser : serElems (v :: w :: ws) ++ ']' :: rest =
              jser v ++ ',' :: (serElems (w :: ws) ++ ']' :: rest) := by
            simp [serElems, List.append_assoc]
          rw [hser]
          simp only [parseElems]
          rw [ihV v (',' :: (serElems (w :: ws) ++ ']' :: rest))
            (by omega) (by simp [headDigit])]
          have hfe : jfuelElems (w :: ws) ≤ fuel := by omega
          simp [ihE (w :: ws) rest (by simp) hfe]
    · intro ms rest hne hf
      cases ms with
      | nil => exact absurd rfl hne
      | cons m tl =>
        obtain ⟨k, v⟩ := m
        rw [jfuelMembers] at hf
        cases tl with
        | nil =>
          have hser : serMembers [(k, v)] ++ '}' :: rest =
              '"' :: (serStrBody k.data ++ '"' :: (':' :: (jser v ++ '}' :: rest))) := by
            simp [serMembers, serStr, List.append_assoc]
          have hv : parseVal fuel (jser v ++ '}' :: rest) = some (v, '}' :: rest) :=
            ihV v ('}' :: rest) (by omega) (by simp [headDigit])
          rw [hser]
          simp [parseMembers, parseStrBody_serStrBody, hv]
        | cons m2 tl2 =>
          have hser : serMembers ((k, v) :: m2 :: tl2) ++ '}' :: rest =
              '"' :: (serStrBody k.data ++ '"' ::
                (':' :: (jser v ++ ',' :: (serMembers (m2 :: tl2) ++ '}' :: rest)))) := by
            simp [serMembers, serStr, List.append_assoc]
          have hv : parseVal fuel (jser v ++ ',' :: (serMembers (m2 :: tl2) ++ '}' :: rest)) =
              some (v, ',' :: (serMembers (m2 :: tl2) ++ '}' :: rest)) :=
            ihV v (',' :: (serMembers (m2 :: tl2) ++ '}' :: rest))
              (by omega) (by simp [headDigit])
          have hfm : jfuelMembers (m2 :: tl2) ≤ fuel := by omega
          have hm2 := ihM (m2 :: tl2) rest (by simp) hfm
          rw [hser]
          simp [parseMembers, parseStrBody_serStrBody, hv, hm2]

/-! ## The default fuel suffices -/

theorem jser_length_bound : ∀ N : Nat,
    (∀ v : JVal, sizeOf v ≤ N → jfuel v ≤ (jser v).length) ∧
    (∀ items : List JVal, sizeOf items ≤ N →
      jfuelElems items ≤ (serElems items).length + 1) ∧
    (∀ ms : List (String × JVal), sizeOf ms ≤ N →
      jfuelMembers ms ≤ (serMembers ms).length + 1) := by
  intro N
  induction N using Nat.strong_induction_on with
  | _ N ih =>
    refine ⟨?_, ?_, ?_⟩
    · intro v hv
      cases v with
      | null => simp [jfuel, jser]
      | bool b => cases b <;> simp [jfuel, jser]
      | num n =>
        rw [jfuel, jser, serInt]
        by_cases hn : n < 0
        · rw [if_pos hn]; simp
        · rw [if_neg hn]
          obtain ⟨c, cs, hd, _⟩ := digitsOf_head n.toNat
          rw [hd]; simp
      | str s => rw [jfuel, jser, serStr]; simp
      | arr items =>
        have hspec : sizeOf (JVal.arr items) = 1 + sizeOf items := by simp
        rw [hspec] at hv
        have hb := (ih (N - 1) (by omega)).2.1 items (by omega)
        rw [jfuel, jser]
        simp only [List.length_cons, List.length_append, List.length_singleton]
        omega
      | obj ms =>
        have hspec : sizeOf (JVal.obj ms) = 1 + sizeOf ms := by simp
        rw [hspec] at hv
        have hb := (ih (N - 1) (by omega)).2.2 ms (by omega)
        rw [jfuel, jser]
        simp only [List.length_cons, List.length_append, List.length_singleton]
        omega
    · intro items hsz
      cases items with
      | nil => simp [jfuelElems, serElems]
      | cons v vs =>
        have hspec : sizeOf (v :: vs) = 1 + sizeOf v + sizeOf vs := by simp
        rw [hspec] at hsz
        have hv := (ih (N - 1) (by omega)).1 v (by omega)
        have hvs := (ih (N - 1) (by omega)).2.1 vs (by omega)
        cases vs with
        | nil =>
          rw [jfuelElems, jfuelElems, serElems]
          omega
        | cons w ws =>
          have hser : serElems (v :: w :: ws) = jser v ++ ',' :: serElems (w :: ws) := by
            simp [serElems]
          rw [jfuelElems, hser]
          simp only [List.length_append, List.length_cons]
          omega
    · intro ms hsz
      cases ms with
      | nil => simp [jfuelMembers, serMembers]
      | cons m tl =>
        obtain ⟨k, v⟩ := m
        have hspec : sizeOf ((k, v) :: tl) = 1 + (1 + sizeOf k + sizeOf v) + sizeOf tl := by
          simp
        rw [hspec] at hsz
        have hv := (ih (N - 1) (by omega)).1 v (by omega)
        have htl := (ih (N - 1) (by omega)).2.2 tl (by omega)
        cases tl with
        | nil =>
          rw [jfuelMembers, jfuelMembers, serMembers]
          simp only [List.length_append, List.length_cons]
          omega
        | cons m2 tl2 =>
          have hser : serMembers ((k, v) :: m2 :: tl2) =
              serStr k.data ++ ':' :: jser v ++ ',' :: serMembers (m2 :: tl2) := by
            simp [serMembers]
          rw [jfuelMembers, hser]
          simp only [List.length_append, List.length_cons]
          omega

theorem jfuel_le_jser_length (v : JVal) : jfuel v ≤ (jser v).length :=
  (jser_length_bound (sizeOf v)).1 v le_rfl

/-- `JSON.parse ∘ JSON.stringify` is the identity (and consumes the whole
text). -/
theorem jparse_jser (v : JVal) : jparse (jser v) = some (v, []) := by
  rw [jparse]
  have h := (parse_roundtrip ((jser v).length + 1)).1 v []
    (by have := jfuel_le_jser_length v; omega) rfl
  rw [List.append_nil] at h
  exact h

/-! ## The claims -/

/-- C1: the spec claims every single-token call whose category ranks strictly
below a category already present throws the order-violation error, so
successful builders are sorted by rank.  The code violates this: after
`element('a').class('c')` a `'class'` fragment (rank 2) is present and
`'id'` ranks 1 < 2, yet `id('b')` succeeds — `validate`'s `validSort` cache
was populated at the `class` call (holding only `'element'`) and is never
refreshed — and the builder stringifies to `a.c#b`, out of rank order. -/
theorem c1_order_check_not_enforced :
    (chain (cssSelectorBuilder.element "a") (Selector.cls "c")).2 = .ok c1state ∧
    "class" ∈ typesOf c1state ∧
    rank "id" < rank "class" ∧
    (Selector.id "b" c1state).2 = .ok (Selector.id "b" c1state).1 ∧
    selStr (Selector.id "b" c1state).1 = "a.c#b" :=
  ⟨rfl, by decide, by decide, rfl, rfl⟩

/-- C2: on every reachable builder already holding a fragment of the same
category, `element`, `id` and `pseudoElement` throw the duplicate-category
error, while `class`, `attr` and `pseudoClass` succeed; in particular
`id('a').id('b')` fails with the duplicate error and `class('a').class('b')`
succeeds and stringifies to `.a.b`. -/
theorem c2_duplicate_category_rules :
    (∀ s, Reachable s → "element" ∈ typesOf s →
      ∀ v, (Selector.element v s).2 = .error dupMsg) ∧
    (∀ s, Reachable s → "id" ∈ typesOf s →
      ∀ v, (Selector.id v s).2 = .error dupMsg) ∧
    (∀ s, Reachable s → "pseudoElement" ∈ typesOf s →
      ∀ v, (Selector.pseudoElement v s).2 = .error dupMsg) ∧
    (∀ s, Reachable s → "class" ∈ typesOf s →
      ∀ v, (Selector.cls v s).2 = .ok (Selector.cls v s).1) ∧
    (∀ s, Reachable s → "attr" ∈ typesOf s →
      ∀ v, (Selector.attr v s).2 = .ok (Selector.attr v s).1) ∧
    (∀ s, Reachable s → "pseudoClass" ∈ typesOf s →
      ∀ v, (Selector.pseudoClass v s).2 = .ok (Selector.pseudoClass v s).1) ∧
    (chain (cssSelectorBuilder.id "a") (Selector.id "b")).2 = .error dupMsg ∧
    (chain (cssSelectorBuilder.cls "a") (Selector.cls "b")).2 =
      .ok (chain (cssSelectorBuilder.cls "a") (Selector.cls "b")).1 ∧
    selStr (chain (cssSelectorBuilder.cls "a") (Selector.cls "b")).1 = ".a.b" := by
  refine ⟨?_, ?_, ?_, ?_, ?_, ?_, rfl, rfl, rfl⟩
  · intro s hr hmem v
    rw [element_eq, singleUnique_dup_of_inv hr.inv hmem (by decide) v]
  · intro s hr hmem v
    rw [id_eq, singleUnique_dup_of_inv hr.inv hmem (by decide) v]
  · intro s hr hmem v
    rw [pseudoElement_eq, singleUnique_dup_of_inv hr.inv hmem (by decide) v]
  · intro s hr hmem v
    rw [cls_eq, singleDirect_ok_of_inv hr.inv hmem (by decide) v]
  · intro s hr hmem v
    rw [attr_eq, singleDirect_ok_of_inv hr.inv hmem (by decide) v]
  · intro s hr hmem v
    rw [pseudoClass_eq, singleDirect_ok_of_inv hr.inv hmem (by decide) v]

/-- C2 witness: the six universal parts of `c2_duplicate_category_rules`
instantiated on concrete one-fragment builders. -/
theorem c2_duplicate_category_rules_witness :
    (Selector.element "y" (runAll [Op.element "x"] Selector.new)).2 = .error dupMsg ∧
    (Selector.id "y" (runAll [Op.id "x"] Selector.new)).2 = .error dupMsg ∧
    (Selector.pseudoElement "y" (runAll [Op.pseudoElement "x"] Selector.new)).2 =
      .error dupMsg ∧
    (Selector.cls "y" (runAll [Op.cls "x"] Selector.new)).2 =
      .ok (Selector.cls "y" (runAll [Op.cls "x"] Selector.new)).1 ∧
    (Selector.attr "y" (runAll [Op.attr "x"] Selector.new)).2 =
      .ok (Selector.attr "y" (runAll [Op.attr "x"] Selector.new)).1 ∧
    (Selector.pseudoClass "y" (runAll [Op.pseudoClass "x"] Selector.new)).2 =
      .ok (Selector.pseudoClass "y" (runAll [Op.pseudoClass "x"] Selector.new)).1 :=
  ⟨c2_duplicate_category_rules.1 _ ⟨[Op.element "x"], rfl⟩ (by decide) "y",
   c2_duplicate_category_rules.2.1 _ ⟨[Op.id "x"], rfl⟩ (by decide) "y",
   c2_duplicate_category_rules.2.2.1 _ ⟨[Op.pseudoElement "x"], rfl⟩ (by decide) "y",
   c2_duplicate_category_rules.2.2.2.1 _ ⟨[Op.cls "x"], rfl⟩ (by decide) "y",
   c2_duplicate_category_rules.2.2.2.2.1 _ ⟨[Op.attr "x"], rfl⟩ (by decide) "y",
   c2_duplicate_category_rules.2.2.2.2.2.1 _ ⟨[Op.pseudoClass "x"], rfl⟩ (by decide) "y"⟩

/-- C3: `stringify` renders the fragment sequence in order with no
separators (a concatenation homomorphism over the sequence), each category
rendering as the spec's table says, and the two end-to-end examples render
`elem#id.cls[attr]:pc::pe` and `div#main + table`. -/
theorem c3_stringify_rendering :
    (∀ es1 es2 vs, selStr (Selector.mk (es1 ++ es2) vs) =
      selStr (Selector.mk es1 vs) ++ selStr (Selector.mk es2 vs)) ∧
    (∀ f vs, selStr (Selector.mk [f] vs) = fragStr f) ∧
    (∀ v, fragStr (SelectorFrag.single v "element") = v) ∧
    (∀ v, fragStr (SelectorFrag.single v "id") = "#" ++ v) ∧
    (∀ v, fragStr (SelectorFrag.single v "class") = "." ++ v) ∧
    (∀ v, fragStr (SelectorFrag.single v "attr") = "[" ++ v ++ "]") ∧
    (∀ v, fragStr (SelectorFrag.single v "pseudoClass") = ":" ++ v) ∧
    (∀ v, fragStr (SelectorFrag.single v "pseudoElement") = "::" ++ v) ∧
    (∀ l c r, fragStr (SelectorFrag.comb l c r) =
      selStr l ++ " " ++ c ++ " " ++ selStr r) ∧
    exChain.2 = .ok exChain.1 ∧
    selStr exChain.1 = "elem#id.cls[attr]:pc::pe" ∧
    exCombine.2 = .ok exCombine.1 ∧
    selStr exCombine.1 = "div#main + table" :=
  ⟨selStr_append, selStr_singleton, fun _ => rfl, fun _ => rfl, fun _ => rfl,
   fun _ => rfl, fun _ => rfl, fun _ => rfl, fun _ _ _ => rfl,
   rfl, rfl, rfl, rfl⟩

/-- C4: `stringify` is a pure read: its body is a single `return` of a
side-effect-free `reduce`, so in the state-transformer embedding the
post-state is the receiver itself; two consecutive calls return the same
string and the fragment sequence is unchanged. -/
theorem c4_stringify_pure (s : Selector) :
    (stringifyM s).2 = (stringifyM ((stringifyM s).1)).2 ∧
    (stringifyM s).1.selectors = s.selectors ∧
    (stringifyM s).1 = s :=
  ⟨rfl, rfl, rfl⟩

/-- C5: whenever a builder operation throws, the fragment sequence is
exactly what it was before the call (only the `validSort` cache may have
been populated), so a subsequent `stringify` returns the same string as
before the failing call. -/
theorem c5_failed_call_preserves_fragments (op : Op) (s : Selector) (e : String)
    (h : (applyOp op s).2 = .error e) :
    (applyOp op s).1.selectors = s.selectors ∧
    selStr (applyOp op s).1 = selStr s :=
  ⟨applyOp_error_frame op s e h,
   selStr_congr (applyOp_error_frame op s e h)⟩

/-- C5 witness: `class('a')` then `element('x')` throws the order-violation
error and leaves the single `class` fragment in place. -/
theorem c5_failed_call_preserves_fragments_witness :
    (applyOp (Op.element "x") (cssSelectorBuilder.cls "a").1).1.selectors =
      (cssSelectorBuilder.cls "a").1.selectors ∧
    selStr (applyOp (Op.element "x") (cssSelectorBuilder.cls "a").1).1 =
      selStr (cssSelectorBuilder.cls "a").1 :=
  c5_failed_call_preserves_fragments (Op.element "x") (cssSelectorBuilder.cls "a").1
    orderMsg rfl

/-- C7: `new Rectangle(w, h)` stores `w` in `width` and `h` in `height`, and
`getArea()` returns `w * h`. -/
theorem c7_rectangle (w h : Int) (hw : 0 ≤ w) (hh : 0 ≤ h) :
    (Rectangle.mk w h).width = w ∧
    (Rectangle.mk w h).height = h ∧
    (Rectangle.mk w h).getArea = w * h :=
  ⟨rfl, rfl, rfl⟩

/-- C7 witness: the doc-comment example `new Rectangle(10, 20)`. -/
theorem c7_rectangle_witness :
    (Rectangle.mk 10 20).width = 10 ∧
    (Rectangle.mk 10 20).height = 20 ∧
    (Rectangle.mk 10 20).getArea = 10 * 20 :=
  c7_rectangle 10 20 (by decide) (by decide)

/-- C8: every facade entry point builds a fresh builder holding exactly one
fragment of the matching category (with an empty order cache), and every
builder operation that succeeds returns exactly its post-state — the
JavaScript `return this` — so chained calls keep operating on one builder. -/
theorem c8_facade_fresh_and_returns_this :
    (∀ v, cssSelectorBuilder.element v =
      (Selector.mk [SelectorFrag.single v "element"] [],
       .ok (Selector.mk [SelectorFrag.single v "element"] []))) ∧
    (∀ v, cssSelectorBuilder.id v =
      (Selector.mk [SelectorFrag.single v "id"] [],
       .ok (Selector.mk [SelectorFrag.single v "id"] []))) ∧
    (∀ v, cssSelectorBuilder.cls v =
      (Selector.mk [SelectorFrag.single v "class"] [],
       .ok (Selector.mk [SelectorFrag.single v "class"] []))) ∧
    (∀ v, cssSelectorBuilder.attr v =
      (Selector.mk [SelectorFrag.single v "attr"] [],
       .ok (Selector.mk [SelectorFrag.single v "attr"] []))) ∧
    (∀ v, cssSelectorBuilder.pseudoClass v =
      (Selector.mk [SelectorFrag.single v "pseudoClass"] [],
       .ok (Selector.mk [SelectorFrag.single v "pseudoClass"] []))) ∧
    (∀ v, cssSelectorBuilder.pseudoElement v =
      (Selector.mk [SelectorFrag.single v "pseudoElement"] [],
       .ok (Selector.mk [SelectorFrag.single v "pseudoElement"] []))) ∧
    (∀ l c r, cssSelectorBuilder.combine l c r =
      (Selector.mk [SelectorFrag.comb l c r] [],
       .ok (Selector.mk [SelectorFrag.comb l c r] []))) ∧
    (∀ op s r, (applyOp op s).2 = .ok r → r = (applyOp op s).1) :=
  ⟨fun _ => rfl, fun _ => rfl, fun _ => rfl, fun _ => rfl, fun _ => rfl,
   fun _ => rfl, fun _ _ _ => rfl, applyOp_returns_this⟩

/-- C8 witness: the returns-this part of `c8_facade_fresh_and_returns_this`
at the concrete call `class('a')` on a fresh builder. -/
theorem c8_facade_fresh_and_returns_this_witness :
    (applyOp (Op.cls "a") Selector.new).1 = (applyOp (Op.cls "a") Selector.new).1 ∧
    (Selector.mk [SelectorFrag.single "a" "class"] []) =
      (applyOp (Op.cls "a") Selector.new).1 :=
  ⟨rfl, c8_facade_fresh_and_returns_this.2.2.2.2.2.2.2 (Op.cls "a") Selector.new
    (Selector.mk [SelectorFrag.single "a" "class"] []) rfl⟩

/-- C9: `combine` stores its two argument builders verbatim — on success the
holding builder's sequence is the old sequence plus one combinator fragment
carrying `l` and `r` unchanged, on failure the holding builder is untouched —
and `stringify` never modifies any builder state, so `l` and `r` stringify
after the call exactly as before. -/
theorem c9_combine_leaves_arguments_unchanged (s l r : Selector) (c : String) :
    ((Selector.combine l c r s).2 = .ok (Selector.combine l c r s).1 →
      (Selector.combine l c r s).1.selectors =
        s.selectors ++ [SelectorFrag.comb l c r]) ∧
    (∀ e, (Selector.combine l c r s).2 = .error e →
      (Selector.combine l c r s).1 = s) ∧
    (∀ t : Selector, (stringifyM t).1 = t) := by
  refine ⟨?_, ?_, fun _ => rfl⟩
  · intro h
    cases hincl : incl (SelectorFrag.comb l c r) s.selectors with
    | true =>
      rw [combine_dup_error l c r hincl] at h
      exact absurd h (by simp)
    | false =>
      rw [combine_ok l c r hincl, selectors_mk]
  · intro e h
    cases hincl : incl (SelectorFrag.comb l c r) s.selectors with
    | true => rw [combine_dup_error l c r hincl]
    | false =>
      rw [combine_ok l c r hincl] at h
      exact absurd h (by simp)

/-- C9 witness: the success part at `combine(element('div'), '+',
element('table'))` on a fresh builder, plus stringify leaving the combined
builder unchanged. -/
theorem c9_combine_leaves_arguments_unchanged_witness :
    (Selector.combine (cssSelectorBuilder.element "div").1 "+"
        (cssSelectorBuilder.element "table").1 Selector.new).1.selectors =
      Selector.new.selectors ++
        [SelectorFrag.comb (cssSelectorBuilder.element "div").1 "+"
          (cssSelectorBuilder.element "table").1] ∧
    (stringifyM Selector.new).1 = Selector.new :=
  ⟨(c9_combine_leaves_arguments_unchanged Selector.new
      (cssSelectorBuilder.element "div").1 (cssSelectorBuilder.element "table").1
      "+").1 rfl,
   (c9_combine_leaves_arguments_unchanged Selector.new
      (cssSelectorBuilder.element "div").1 (cssSelectorBuilder.element "table").1
      "+").2.2 Selector.new⟩

/-- C10: a builder already holding a combinator fragment rejects any further
`combine` with the duplicate-category error, while on a builder without one
`combine` succeeds for arbitrary arguments — it validates neither the order
nor `left`, `operator`, `right`. -/
theorem c10_combine_at_most_once (s l r : Selector) (c : String) :
    ("combine" ∈ typesOf s →
      Selector.combine l c r s = (s, .error dupMsg)) ∧
    ("combine" ∉ typesOf s →
      Selector.combine l c r s =
        (Selector.mk (s.selectors ++ [SelectorFrag.comb l c r]) s.validSort,
         .ok (Selector.mk (s.selectors ++ [SelectorFrag.comb l c r]) s.validSort))) := by
  constructor
  · intro hmem
    exact combine_dup_error l c r ((incl_eq_true_iff _ _).2 hmem)
  · intro hmem
    refine combine_ok l c r ?_
    cases hincl : incl (SelectorFrag.comb l c r) s.selectors with
    | true => exact absurd ((incl_eq_true_iff _ _).1 hincl) hmem
    | false => rfl

/-- C6: deserializing the serialization of any object in the model (all
fields JSON-representable by construction) with any prototype capability set
yields exactly the object built from those capabilities directly with the
same fields: the fields are equal to the original's and every method,
looked up on the supplied prototype, behaves identically on both. -/
theorem c6_serialize_deserialize_roundtrip (x : JSObject)
    (proto : List (String × JMethod)) :
    fromJSON proto (serializeObj x) = some (mkObject proto x.fields) ∧
    ∀ y, fromJSON proto (serializeObj x) = some y →
      y.fields = x.fields ∧
      ∀ name arg, callMethod y name arg = callMethod (mkObject proto x.fields) name arg := by
  have h1 : fromJSON proto (serializeObj x) = some (mkObject proto x.fields) := by
    rw [fromJSON, serializeObj, getJSON]
    have hd : (String.mk (jser (JVal.obj x.fields))).data = jser (JVal.obj x.fields) := rfl
    rw [hd, jparse_jser (JVal.obj x.fields)]
    rfl
  refine ⟨h1, ?_⟩
  intro y hy
  rw [h1, Option.some.injEq] at hy
  rw [← hy]
  exact ⟨rfl, fun name arg => rfl⟩

/-- C6 witness: the round trip at a concrete rectangle-like object carrying
a `getArea`-style capability. -/
theorem c6_serialize_deserialize_roundtrip_witness :
    fromJSON [("getArea", fun fields _ => JVal.obj fields)]
        (serializeObj ⟨[("width", JVal.num 10), ("height", JVal.num 20)],
          [("getArea", fun fields _ => JVal.obj fields)]⟩) =
      some (mkObject [("getArea", fun fields _ => JVal.obj fields)]
        [("width", JVal.num 10), ("height", JVal.num 20)]) :=
  (c6_serialize_deserialize_roundtrip
    ⟨[("width", JVal.num 10), ("height", JVal.num 20)],
      [("getArea", fun fields _ => JVal.obj fields)]⟩
    [("getArea", fun fields _ => JVal.obj fields)]).1

/-- C10 witness: a second `combine` on `combine(new, '+', new)` fails with
the duplicate error even with an arbitrary operator token, and the first
`combine` succeeded without validating its arguments. -/
theorem c10_combine_at_most_once_witness :
    Selector.combine Selector.new "~" Selector.new
        (cssSelectorBuilder.combine Selector.new "+" Selector.new).1 =
      ((cssSelectorBuilder.combine Selector.new "+" Selector.new).1,
       .error dupMsg) ∧
    Selector.combine Selector.new "@@not-a-combinator" Selector.new Selector.new =
      (Selector.mk [SelectorFrag.comb Selector.new "@@not-a-combinator" Selector.new] [],
       .ok (Selector.mk
         [SelectorFrag.comb Selector.new "@@not-a-combinator" Selector.new] [])) :=
  ⟨(c10_combine_at_most_once
      (cssSelectorBuilder.combine Selector.new "+" Selector.new).1
      Selector.new Selector.new "~").1 (by decide),
   (c10_combine_at_most_once Selector.new Selector.new Selector.new
      "@@not-a-combinator").2 (by decide)⟩

end ObjectsTasks
